import Mathlib

/-!
Shallow embedding of the tokenizer and expression-parser front end of
`src/src/parser.rs` (a small SQL-like query language).

The Rust scanner walks a peekable character iterator; here the unconsumed
input is a `List Char` and every scanning step returns the produced token
together with the remaining characters.  The scanning loop of
`Tokenizer::tokenize` and the precedence loop of `Parser::parse_expr` are
modelled with explicit fuel: a result of `none` means the loop has not
finished within that many iterations, and `∀ fuel, ... = none` means the
Rust loop never terminates on that input.  Each consuming scanner step
removes at least one character, so fuel `length + 1` is exact whenever the
loop terminates at all.
-/

/-- Tokens of the query language, mirroring `enum Token` in the source.
Tokens are compared structurally, matching the derived `PartialEq`. -/
inductive Token where
  | Identifier : String → Token
  | Keyword : String → Token
  | Operator : String → Token
  | Number : String → Token
  | Comma : Token
  | Whitespace : Token
  | Eq : Token
  | Neq : Token
  | Lt : Token
  | Gt : Token
  | LtEq : Token
  | GtEq : Token
  | Plus : Token
  | Minus : Token
  | Mult : Token
  | Div : Token
  | LParen : Token
  | RParen : Token
deriving DecidableEq, Repr

/-- Error type of the front end, mirroring `enum ParserError`: a lexical
failure (`TokenizerError`) or a structural failure (`ParserError`). -/
inductive ParserError where
  | TokenizerError : String → ParserError
  | ParserError : String → ParserError
deriving DecidableEq, Repr

/-- Whitespace characters handled by the first match arm of
`Tokenizer::next_token` (space, tab, newline). -/
def isWhitespaceChar (c : Char) : Bool :=
  c == ' ' || c == '\t' || c == '\n'

/-- Characters that may start an identifier/keyword lexeme:
ASCII letters, underscore, or at-sign (`'a'...'z' | 'A'...'Z' | '_' | '@'`). -/
def isIdentStart (c : Char) : Bool :=
  c.isAlpha || c == '_' || c == '@'

/-- Characters that continue an identifier/keyword lexeme:
ASCII letters, underscore, or digits — note `'@'` is absent. -/
def isIdentCont (c : Char) : Bool :=
  c.isAlpha || c == '_' || c.isDigit

/-- Inner accumulation loop of the identifier branch of
`Tokenizer::next_token`: push characters onto the lexeme while they are
letters, digits or underscores, then stop at the first other character. -/
def takeWordRun : List Char → String → String × List Char
  | [], s => (s, [])
  | c :: cs, s => if isIdentCont c then takeWordRun cs (s.push c) else (s, c :: cs)

/-- Inner accumulation loop of the number branch of
`Tokenizer::next_token`: push characters while they are ASCII digits. -/
def takeDigitRun : List Char → String → String × List Char
  | [], s => (s, [])
  | c :: cs, s => if c.isDigit then takeDigitRun cs (s.push c) else (s, c :: cs)

/-- Uppercase one ASCII letter.  The source calls Rust's Unicode
`to_uppercase`, which coincides with ASCII uppercasing on every character an
identifier run can contain (ASCII letters, digits, underscore). -/
def asciiUpperChar (c : Char) : Char :=
  if c.isLower then Char.ofNat (c.toNat - 32) else c

/-- Uppercase an identifier lexeme character by character. -/
def asciiUpper (s : String) : String :=
  String.mk (s.data.map asciiUpperChar)

/-- Keyword classification of `Tokenizer::next_token`: the uppercased lexeme
is matched against the fixed reserved words of the or-pattern in the source;
the resulting token keeps the original-case lexeme as its payload. -/
def wordToken (s : String) : Token :=
  let u := asciiUpper s
  if u == "SELECT" || u == "FROM" || u == "WHERE" || u == "LIMIT" ||
      u == "ORDER" || u == "GROUP" || u == "BY" || u == "UNION" ||
      u == "ALL" || u == "UPDATE" || u == "DELETE" || u == "IN" ||
      u == "NOT" || u == "NULL" || u == "SET" then
    Token.Keyword s
  else
    Token.Identifier s

/-- The keyword set of the specification, as a plain list of strings. -/
def keywordList : List String :=
  ["SELECT", "FROM", "WHERE", "LIMIT", "ORDER", "GROUP", "BY", "UNION",
   "ALL", "UPDATE", "DELETE", "IN", "NOT", "NULL", "SET"]

/-- A single-quote character, written via its code point. -/
def squote : String := String.mk [Char.ofNat 39]

/-- Message built by `format!("unhandled char '{}' in tokenizer", ch)`. -/
def tokErrMsg (c : Char) : String :=
  "unhandled char " ++ squote ++ String.mk [c] ++ squote ++ " in tokenizer"

/-- Lookahead after a consumed `'<'`: `'='` forms `LtEq`, `'>'` forms `Neq`,
anything else (or end of input) leaves `Lt` with the lookahead unconsumed. -/
def ltFollow : List Char → Token × List Char
  | [] => (Token.Lt, [])
  | c2 :: cs2 =>
    if c2 == '=' then (Token.LtEq, cs2)
    else if c2 == '>' then (Token.Neq, cs2)
    else (Token.Lt, c2 :: cs2)

/-- Lookahead after a consumed `'>'`: `'='` forms `GtEq`, anything else (or
end of input) leaves `Gt` with the lookahead unconsumed. -/
def gtFollow : List Char → Token × List Char
  | [] => (Token.Gt, [])
  | c2 :: cs2 =>
    if c2 == '=' then (Token.GtEq, cs2)
    else (Token.Gt, c2 :: cs2)

/-- One step of the scanner (`Tokenizer::next_token`): `ok none` at end of
input, otherwise the produced token and the remaining characters, or a
`TokenizerError` on an unhandled character.  The branch order mirrors the
match arms of the source.  Note that in the identifier branch the starting
character is only consumed by the inner run when it is also a continuation
character, exactly as in the source (where `'@'` is peeked but never
consumed). -/
def Tokenizer.next_token : List Char → Except ParserError (Option (Token × List Char))
  | [] => Except.ok none
  | c :: cs =>
    if isWhitespaceChar c then Except.ok (some (Token.Whitespace, cs))
    else if isIdentStart c then
      Except.ok (some (wordToken (takeWordRun (c :: cs) "").1, (takeWordRun (c :: cs) "").2))
    else if c.isDigit then
      Except.ok (some (Token.Number (takeDigitRun (c :: cs) "").1, (takeDigitRun (c :: cs) "").2))
    else if c == '+' then Except.ok (some (Token.Plus, cs))
    else if c == '-' then Except.ok (some (Token.Minus, cs))
    else if c == '*' then Except.ok (some (Token.Mult, cs))
    else if c == '/' then Except.ok (some (Token.Div, cs))
    else if c == '=' then Except.ok (some (Token.Eq, cs))
    else if c == '<' then Except.ok (some (ltFollow cs))
    else if c == '>' then Except.ok (some (gtFollow cs))
    else Except.error (ParserError.TokenizerError (tokErrMsg c))

/-- Predicate of the whitespace filter at the end of `Tokenizer::tokenize`. -/
def isWhitespaceToken : Token → Bool
  | Token.Whitespace => true
  | _ => false

/-- The scanning loop of `Tokenizer::tokenize` with explicit fuel: `none`
means the loop is still running after `fuel` iterations. -/
def tokenizeLoop : Nat → List Char → Option (Except ParserError (List Token))
  | 0, _ => none
  | fuel + 1, cs =>
    match Tokenizer.next_token cs with
    | Except.error e => some (Except.error e)
    | Except.ok none => some (Except.ok [])
    | Except.ok (some (t, rest)) =>
      match tokenizeLoop fuel rest with
      | none => none
      | some (Except.error e) => some (Except.error e)
      | some (Except.ok ts) => some (Except.ok (t :: ts))

/-- `Tokenizer::tokenize`: run the scanning loop, then drop all transient
`Whitespace` tokens.  Fuel `length + 1` is sufficient whenever every step
consumes at least one character, so `none` models exactly the inputs on
which the Rust loop never terminates (a step that consumes nothing repeats
the same state forever). -/
def tokenize (cs : List Char) : Option (Except ParserError (List Token)) :=
  match tokenizeLoop (cs.length + 1) cs with
  | none => none
  | some (Except.error e) => some (Except.error e)
  | some (Except.ok ts) => some (Except.ok (ts.filter (fun t => !isWhitespaceToken t)))

/-- Character list of a string literal, for readable theorem statements. -/
def strChars (s : String) : List Char := s.data

/-- The expression AST type lives outside the given source (`super::sql`);
the parser treats it as an opaque build target and, in the present skeleton,
never constructs or inspects a value of it, so it is embedded as an abstract
single-constructor type. -/
inductive ASTNode where
  | external : ASTNode
deriving DecidableEq, Repr

/-- The parser cursor: the token sequence plus the zero-based read index,
mirroring `struct Parser`. -/
structure Parser where
  tokens : List Token
  index : Nat
deriving DecidableEq, Repr

/-- `Parser::new`: start reading at index 0. -/
def Parser.new (tokens : List Token) : Parser :=
  Parser.mk tokens 0

/-- `Parser::next_token`: if a token remains, advance the index and return
the token just passed; otherwise return `None`.  The call always consumes —
there is no peek primitive in the source. -/
def Parser.next_token (p : Parser) : Option Token × Parser :=
  if h : p.index < p.tokens.length then
    (some (p.tokens.get ⟨p.index, h⟩), Parser.mk p.tokens (p.index + 1))
  else
    (none, p)

/-- `Parser::get_precedence`: the infix precedence table.  Every token
outside the table yields an error built with the `TokenizerError`
constructor (the message misspelling is the source's). -/
def get_precedence (tok : Token) : Except ParserError Nat :=
  match tok with
  | Token.Eq | Token.Lt | Token.LtEq | Token.Neq | Token.Gt | Token.GtEq => Except.ok 20
  | Token.Plus | Token.Minus => Except.ok 30
  | Token.Mult | Token.Div => Except.ok 40
  | _ => Except.error (ParserError.TokenizerError "invalid token for get_precendence")

/-- `Parser::parse_prefix`: unimplemented in the source — it
unconditionally fails (and does so with the `TokenizerError` constructor). -/
def parse_prefix (p : Parser) : Except ParserError (ASTNode × Parser) :=
  Except.error (ParserError.TokenizerError "not implemented yet")

/-- `Parser::parse_infix`: unimplemented in the source — it
unconditionally fails. -/
def parse_infix (p : Parser) (expr : ASTNode) (precedence : Nat) :
    Except ParserError (ASTNode × Parser) :=
  Except.error (ParserError.TokenizerError "not implemented yet")

/-- The `while let` precedence loop of `Parser::parse_expr`, with explicit
fuel.  Each iteration consumes the next token before inspecting it; a token
without infix precedence makes the loop fail via the `?` on
`get_precedence`, and the `break` on insufficient precedence also happens
only after the token has been consumed. -/
def parseExprLoop : Nat → Parser → Nat → ASTNode → Option (Except ParserError (ASTNode × Parser))
  | 0, _, _, _ => none
  | fuel + 1, p, precedence, expr =>
    match Parser.next_token p with
    | (none, p1) => some (Except.ok (expr, p1))
    | (some tok, p1) =>
      match get_precedence tok with
      | Except.error e => some (Except.error e)
      | Except.ok nextPrec =>
        if precedence ≥ nextPrec then some (Except.ok (expr, p1))
        else
          match parse_infix p1 expr nextPrec with
          | Except.error e => some (Except.error e)
          | Except.ok (expr2, p2) => parseExprLoop fuel p2 precedence expr2

/-- `Parser::parse_expr`: parse one prefix term, then run the precedence
loop.  Every loop iteration consumes one token, so fuel `length + 1`
covers any terminating run of the loop. -/
def parse_expr (fuel : Nat) (p : Parser) (precedence : Nat) :
    Option (Except ParserError (ASTNode × Parser)) :=
  match parse_prefix p with
  | Except.error e => some (Except.error e)
  | Except.ok (expr, p1) => parseExprLoop fuel p1 precedence expr

/-- `Parser::parse`: parse one expression at minimum precedence 0. -/
def parse (p : Parser) : Option (Except ParserError (ASTNode × Parser)) :=
  parse_expr (p.tokens.length + 1) p 0

/-- C9: tokenizing the empty input succeeds and returns the empty token
sequence — end of input with nothing consumed yields `Ok` of an empty
sequence, not an error. -/
theorem tokenize_empty : tokenize [] = some (Except.ok []) := rfl

/-- C8: tokenizing `"SELECT * FROM customer WHERE id = 1"` succeeds with
exactly the eight expected tokens in order. -/
theorem tokenize_simple_select :
    tokenize (strChars "SELECT * FROM customer WHERE id = 1") =
      some (Except.ok
        [Token.Keyword "SELECT", Token.Mult, Token.Keyword "FROM",
         Token.Identifier "customer", Token.Keyword "WHERE",
         Token.Identifier "id", Token.Eq, Token.Number "1"]) := by
  rfl

/-- C2: the parser core is unimplemented in the source — `parse_prefix`
unconditionally fails — so parsing the token sequences of `"1 + 2 * 3"`
and `"1 - 2 - 3"` returns the not-implemented error instead of the
precedence-respecting trees required by the claim. -/
theorem parse_arithmetic_unimplemented :
    parse (Parser.new [Token.Number "1", Token.Plus, Token.Number "2",
        Token.Mult, Token.Number "3"]) =
      some (Except.error (ParserError.TokenizerError "not implemented yet")) ∧
    parse (Parser.new [Token.Number "1", Token.Minus, Token.Number "2",
        Token.Minus, Token.Number "3"]) =
      some (Except.error (ParserError.TokenizerError "not implemented yet")) :=
  ⟨rfl, rfl⟩

/-- C1: the precedence loop does not peek.  `Parser::next_token` advances
the cursor (here: from index 0 to index 1) while returning the token; when
the consumed token is not a binding operator (for example `RParen`) the
loop fails through `get_precedence` instead of stopping and returning the
expression built so far; and `parse` never returns successfully because
`parse_prefix` is unimplemented, so the cursor contract after a successful
`parse()` is never realised. -/
theorem parse_expr_consumes_lookahead :
    Parser.next_token (Parser.new [Token.RParen]) =
      (some Token.RParen, Parser.mk [Token.RParen] 1) ∧
    parseExprLoop 2 (Parser.new [Token.RParen]) 0 ASTNode.external =
      some (Except.error
        (ParserError.TokenizerError "invalid token for get_precendence")) ∧
    ∀ p : Parser,
      parse p = some (Except.error (ParserError.TokenizerError "not implemented yet")) :=
  ⟨rfl, rfl, fun _ => rfl⟩

/-- C3: the infix precedence table assigns 20 to the six comparison tokens,
30 to `Plus`/`Minus`, 40 to `Mult`/`Div`, and fails on every other token —
but the failure is built with the `TokenizerError` constructor, not the
`ParserError` one: every result is one of the three table values or that
exact lexical-kind error. -/
theorem get_precedence_table :
    get_precedence Token.Eq = Except.ok 20 ∧
    get_precedence Token.Neq = Except.ok 20 ∧
    get_precedence Token.Lt = Except.ok 20 ∧
    get_precedence Token.Gt = Except.ok 20 ∧
    get_precedence Token.LtEq = Except.ok 20 ∧
    get_precedence Token.GtEq = Except.ok 20 ∧
    get_precedence Token.Plus = Except.ok 30 ∧
    get_precedence Token.Minus = Except.ok 30 ∧
    get_precedence Token.Mult = Except.ok 40 ∧
    get_precedence Token.Div = Except.ok 40 ∧
    get_precedence Token.Comma =
      Except.error (ParserError.TokenizerError "invalid token for get_precendence") ∧
    ∀ tok : Token,
      get_precedence tok = Except.ok 20 ∨
      get_precedence tok = Except.ok 30 ∨
      get_precedence tok = Except.ok 40 ∨
      get_precedence tok =
        Except.error (ParserError.TokenizerError "invalid token for get_precendence") := by
  refine ⟨rfl, rfl, rfl, rfl, rfl, rfl, rfl, rfl, rfl, rfl, rfl, ?_⟩
  intro tok
  cases tok <;> simp [get_precedence]

/-- C10: the tokenizer does not terminate on every finite input.  On the
input `"@"` the scanner returns the token `Identifier ""` without consuming
the at-sign (it starts an identifier lexeme but is not a continuation
character), so the scanning loop repeats the same state forever: no amount
of fuel finishes it, and `tokenize` diverges. -/
theorem tokenize_at_sign_diverges :
    Tokenizer.next_token ['@'] = Except.ok (some (Token.Identifier "", ['@'])) ∧
    (∀ fuel : Nat, tokenizeLoop fuel ['@'] = none) ∧
    tokenize ['@'] = none := by
  have hstep : Tokenizer.next_token ['@'] =
      Except.ok (some (Token.Identifier "", ['@'])) := rfl
  have hloop : ∀ fuel : Nat, tokenizeLoop fuel ['@'] = none := by
    intro fuel
    induction fuel with
    | zero => rfl
    | succ n ih => simp [tokenizeLoop, hstep, ih]
  refine ⟨hstep, hloop, ?_⟩
  simp [tokenize, hloop 2]

/-- C7: an unhandled character does not always make `tokenize` fail.  When
the scan reaches the character, the error does name it (inputs `"%"` and
`"SELECT 1 % 2"`), but on `"@%"` the non-consuming at-sign step makes the
loop run forever, so the unhandled percent sign is never reached and no
`TokenizerError` is ever produced. -/
theorem tokenize_unhandled_char :
    tokenize ['%'] =
      some (Except.error (ParserError.TokenizerError (tokErrMsg '%'))) ∧
    tokenize (strChars "SELECT 1 % 2") =
      some (Except.error (ParserError.TokenizerError (tokErrMsg '%'))) ∧
    (∀ fuel : Nat, tokenizeLoop fuel ['@', '%'] = none) ∧
    tokenize ['@', '%'] = none := by
  have hstep : Tokenizer.next_token ['@', '%'] =
      Except.ok (some (Token.Identifier "", ['@', '%'])) := rfl
  have hloop : ∀ fuel : Nat, tokenizeLoop fuel ['@', '%'] = none := by
    intro fuel
    induction fuel with
    | zero => rfl
    | succ n ih => simp [tokenizeLoop, hstep, ih]
  refine ⟨rfl, rfl, hloop, ?_⟩
  simp [tokenize, hloop 3]

/-- Helper: a whitespace character is one of space, tab, newline. -/
theorem whitespaceChar_cases (c : Char) (h : isWhitespaceChar c = true) :
    c = ' ' ∨ c = '\t' ∨ c = '\n' := by
  simpa [isWhitespaceChar, or_assoc] using h

/-- Helper: an identifier-start character is never a whitespace character. -/
theorem identStart_not_whitespace (c : Char) (h : isIdentStart c = true) :
    isWhitespaceChar c = false := by
  cases hws : isWhitespaceChar c
  · rfl
  · rcases whitespaceChar_cases c hws with h1 | h1 | h1 <;> subst h1 <;>
      exact absurd h (by decide)

/-- Helper: the or-pattern of keyword strings in `Tokenizer::next_token`
coincides with membership in the specification's keyword set. -/
theorem wordToken_eq_mem (s : String) :
    wordToken s =
      if asciiUpper s ∈ keywordList then Token.Keyword s else Token.Identifier s := by
  have hiff :
      ((asciiUpper s == "SELECT" || asciiUpper s == "FROM" ||
        asciiUpper s == "WHERE" || asciiUpper s == "LIMIT" ||
        asciiUpper s == "ORDER" || asciiUpper s == "GROUP" ||
        asciiUpper s == "BY" || asciiUpper s == "UNION" ||
        asciiUpper s == "ALL" || asciiUpper s == "UPDATE" ||
        asciiUpper s == "DELETE" || asciiUpper s == "IN" ||
        asciiUpper s == "NOT" || asciiUpper s == "NULL" ||
        asciiUpper s == "SET") = true) ↔ asciiUpper s ∈ keywordList := by
    simp [keywordList, or_assoc]
  simp only [wordToken]
  exact if_congr hiff rfl rfl

/-- C5: for every identifier-shaped lexeme captured by the tokenizer (the
maximal run of letters, digits and underscores starting at an
identifier-start character), the produced token is `Keyword` exactly when
the uppercased lexeme is in the fifteen-word keyword set and `Identifier`
otherwise, and in both cases the payload is the lexeme in its original
case. -/
theorem identifier_keyword_classification (c : Char) (cs : List Char)
    (h : isIdentStart c = true) :
    Tokenizer.next_token (c :: cs) =
      Except.ok (some
        ((if asciiUpper (takeWordRun (c :: cs) "").1 ∈ keywordList
          then Token.Keyword (takeWordRun (c :: cs) "").1
          else Token.Identifier (takeWordRun (c :: cs) "").1),
         (takeWordRun (c :: cs) "").2)) := by
  have hw : isWhitespaceChar c = false := identStart_not_whitespace c h
  simp [Tokenizer.next_token, hw, h, wordToken_eq_mem]

/-- Witness for C5 at the concrete lexeme `SELECT`. -/
theorem identifier_keyword_classification_witness :
    isIdentStart 'S' = true ∧
    Tokenizer.next_token (strChars "SELECT") =
      Except.ok (some
        ((if asciiUpper (takeWordRun (strChars "SELECT") "").1 ∈ keywordList
          then Token.Keyword (takeWordRun (strChars "SELECT") "").1
          else Token.Identifier (takeWordRun (strChars "SELECT") "").1),
         (takeWordRun (strChars "SELECT") "").2)) :=
  ⟨by decide, identifier_keyword_classification 'S' (strChars "ELECT") (by decide)⟩

/-- C6: tokenizing `"SELECT  1"` (two spaces) and `"SELECT 1"` yields
identical sequences; no `Whitespace` token ever appears in a returned
sequence; and the returned sequence is a sublist (same order, nothing
merged) of the raw scanned sequence. -/
theorem tokenize_whitespace_invariance :
    tokenize (strChars "SELECT  1") = tokenize (strChars "SELECT 1") ∧
    (∀ (cs : List Char) (ts : List Token),
        tokenize cs = some (Except.ok ts) → Token.Whitespace ∉ ts) ∧
    (∀ (cs : List Char) (raw ts : List Token),
        tokenizeLoop (cs.length + 1) cs = some (Except.ok raw) →
        tokenize cs = some (Except.ok ts) → ts.Sublist raw) := by
  refine ⟨rfl, ?_, ?_⟩
  · intro cs ts h
    simp only [tokenize] at h
    cases e : tokenizeLoop (cs.length + 1) cs with
    | none => simp [e] at h
    | some r =>
      cases r with
      | error msg => simp [e] at h
      | ok raw =>
        simp only [e, Option.some.injEq, Except.ok.injEq] at h
        intro hmem
        rw [← h] at hmem
        have hkeep := (List.mem_filter.mp hmem).2
        simp [isWhitespaceToken] at hkeep
  · intro cs raw ts e h
    simp only [tokenize, e, Option.some.injEq, Except.ok.injEq] at h
    rw [← h]
    exact List.filter_sublist raw

/-- Witness for C6 on the input `"SELECT 1"`. -/
theorem tokenize_whitespace_invariance_witness :
    Token.Whitespace ∉ [Token.Keyword "SELECT", Token.Number "1"] ∧
    List.Sublist [Token.Keyword "SELECT", Token.Number "1"]
      [Token.Keyword "SELECT", Token.Whitespace, Token.Number "1"] :=
  ⟨tokenize_whitespace_invariance.2.1 (strChars "SELECT 1")
      [Token.Keyword "SELECT", Token.Number "1"] rfl,
   tokenize_whitespace_invariance.2.2 (strChars "SELECT 1")
      [Token.Keyword "SELECT", Token.Whitespace, Token.Number "1"]
      [Token.Keyword "SELECT", Token.Number "1"] rfl rfl⟩

/-- Helper: appending a non-continuation character to the input does not
change an identifier run — it just stays behind in the remainder. -/
theorem takeWordRun_append (d : Char) (hd : isIdentCont d = false) (xs : List Char) :
    ∀ acc : String,
      takeWordRun (xs ++ [d]) acc =
        ((takeWordRun xs acc).1, (takeWordRun xs acc).2 ++ [d]) := by
  induction xs with
  | nil => intro acc; simp [takeWordRun, hd]
  | cons x xs ih =>
    intro acc
    cases hx : isIdentCont x
    · simp [takeWordRun, hx]
    · simp [takeWordRun, hx, ih]

/-- Helper: appending a non-digit character does not change a digit run. -/
theorem takeDigitRun_append (d : Char) (hd : d.isDigit = false) (xs : List Char) :
    ∀ acc : String,
      takeDigitRun (xs ++ [d]) acc =
        ((takeDigitRun xs acc).1, (takeDigitRun xs acc).2 ++ [d]) := by
  induction xs with
  | nil => intro acc; simp [takeDigitRun, hd]
  | cons x xs ih =>
    intro acc
    cases hx : x.isDigit
    · simp [takeDigitRun, hx]
    · simp [takeDigitRun, hx, ih]

/-- Helper: appending a character that cannot extend a `'<'` compound
(neither `'='` nor `'>'` when the lookahead was empty) commutes with the
`'<'` lookahead step. -/
theorem ltFollow_append (d : Char) (cs : List Char)
    (hne : cs = [] → d ≠ '=' ∧ d ≠ '>') :
    ltFollow (cs ++ [d]) = ((ltFollow cs).1, (ltFollow cs).2 ++ [d]) := by
  cases cs with
  | nil =>
    obtain ⟨h1, h2⟩ := hne rfl
    simp [ltFollow, h1, h2]
  | cons c2 cs2 =>
    by_cases h2 : c2 = '='
    · simp [ltFollow, h2]
    · by_cases h3 : c2 = '>'
      · simp [ltFollow, h2, h3]
      · simp [ltFollow, h2, h3]

/-- Helper: appending a character other than `'='` (when the lookahead was
empty) commutes with the `'>'` lookahead step. -/
theorem gtFollow_append (d : Char) (cs : List Char)
    (hne : cs = [] → d ≠ '=') :
    gtFollow (cs ++ [d]) = ((gtFollow cs).1, (gtFollow cs).2 ++ [d]) := by
  cases cs with
  | nil =>
    have h1 := hne rfl
    simp [gtFollow, h1]
  | cons c2 cs2 =>
    by_cases h2 : c2 = '='
    · simp [gtFollow, h2]
    · simp [gtFollow, h2]

/-- Helper: the scanner signals end of input only on the empty remainder. -/
theorem next_token_none (cs : List Char)
    (h : Tokenizer.next_token cs = Except.ok none) : cs = [] := by
  cases cs with
  | nil => rfl
  | cons c cs2 =>
    simp only [Tokenizer.next_token] at h
    by_cases h1 : isWhitespaceChar c = true
    · rw [if_pos h1] at h; exact absurd h (by simp)
    · rw [if_neg h1] at h
      by_cases h2 : isIdentStart c = true
      · rw [if_pos h2] at h; exact absurd h (by simp)
      · rw [if_neg h2] at h
        by_cases h3 : c.isDigit = true
        · rw [if_pos h3] at h; exact absurd h (by simp)
        · rw [if_neg h3] at h
          by_cases h4 : (c == '+') = true
          · rw [if_pos h4] at h; exact absurd h (by simp)
          · rw [if_neg h4] at h
            by_cases h5 : (c == '-') = true
            · rw [if_pos h5] at h; exact absurd h (by simp)
            · rw [if_neg h5] at h
              by_cases h6 : (c == '*') = true
              · rw [if_pos h6] at h; exact absurd h (by simp)
              · rw [if_neg h6] at h
                by_cases h7 : (c == '/') = true
                · rw [if_pos h7] at h; exact absurd h (by simp)
                · rw [if_neg h7] at h
                  by_cases h8 : (c == '=') = true
                  · rw [if_pos h8] at h; exact absurd h (by simp)
                  · rw [if_neg h8] at h
                    by_cases h9 : (c == '<') = true
                    · rw [if_pos h9] at h; exact absurd h (by simp)
                    · rw [if_neg h9] at h
                      by_cases h10 : (c == '>') = true
                      · rw [if_pos h10] at h; exact absurd h (by simp)
                      · rw [if_neg h10] at h; exact absurd h (by simp)

/-- Helper: one scanner step commutes with appending a character `d` that
cannot be swallowed by the step — `d` neither continues an identifier or
digit run, nor completes a `'<'`/`'>'` compound at the very end of the
input. -/
theorem next_token_append (d : Char)
    (hdw : isIdentCont d = false) (hdd : d.isDigit = false)
    (cs rest : List Char) (t : Token)
    (hlt : cs = ['<'] → d ≠ '=' ∧ d ≠ '>')
    (hgt : cs = ['>'] → d ≠ '=')
    (h : Tokenizer.next_token cs = Except.ok (some (t, rest))) :
    Tokenizer.next_token (cs ++ [d]) = Except.ok (some (t, rest ++ [d])) := by
  cases cs with
  | nil => simp [Tokenizer.next_token] at h
  | cons c cs2 =>
    rw [List.cons_append]
    simp only [Tokenizer.next_token] at h ⊢
    by_cases h1 : isWhitespaceChar c = true
    · rw [if_pos h1] at h ⊢
      simp only [Except.ok.injEq, Option.some.injEq, Prod.mk.injEq] at h ⊢
      exact ⟨h.1, by rw [h.2]⟩
    · rw [if_neg h1] at h ⊢
      by_cases h2 : isIdentStart c = true
      · rw [if_pos h2] at h ⊢
        have ha := takeWordRun_append d hdw (c :: cs2) ""
        rw [List.cons_append] at ha
        rw [ha]
        simp only [Except.ok.injEq, Option.some.injEq, Prod.mk.injEq] at h ⊢
        exact ⟨h.1, by rw [h.2]⟩
      · rw [if_neg h2] at h ⊢
        by_cases h3 : c.isDigit = true
        · rw [if_pos h3] at h ⊢
          have ha := takeDigitRun_append d hdd (c :: cs2) ""
          rw [List.cons_append] at ha
          rw [ha]
          simp only [Except.ok.injEq, Option.some.injEq, Prod.mk.injEq] at h ⊢
          exact ⟨h.1, by rw [h.2]⟩
        · rw [if_neg h3] at h ⊢
          by_cases h4 : (c == '+') = true
          · rw [if_pos h4] at h ⊢
            simp only [Except.ok.injEq, Option.some.injEq, Prod.mk.injEq] at h ⊢
            exact ⟨h.1, by rw [h.2]⟩
          · rw [if_neg h4] at h ⊢
            by_cases h5 : (c == '-') = true
            · rw [if_pos h5] at h ⊢
              simp only [Except.ok.injEq, Option.some.injEq, Prod.mk.injEq] at h ⊢
              exact ⟨h.1, by rw [h.2]⟩
            · rw [if_neg h5] at h ⊢
              by_cases h6 : (c == '*') = true
              · rw [if_pos h6] at h ⊢
                simp only [Except.ok.injEq, Option.some.injEq, Prod.mk.injEq] at h ⊢
                exact ⟨h.1, by rw [h.2]⟩
              · rw [if_neg h6] at h ⊢
                by_cases h7 : (c == '/') = true
                · rw [if_pos h7] at h ⊢
                  simp only [Except.ok.injEq, Option.some.injEq, Prod.mk.injEq] at h ⊢
                  exact ⟨h.1, by rw [h.2]⟩
                · rw [if_neg h7] at h ⊢
                  by_cases h8 : (c == '=') = true
                  · rw [if_pos h8] at h ⊢
                    simp only [Except.ok.injEq, Option.some.injEq, Prod.mk.injEq] at h ⊢
                    exact ⟨h.1, by rw [h.2]⟩
                  · rw [if_neg h8] at h ⊢
                    by_cases h9 : (c == '<') = true
                    · rw [if_pos h9] at h ⊢
                      have hc : c = '<' := by simpa using h9
                      have hne : cs2 = [] → d ≠ '=' ∧ d ≠ '>' := by
                        intro hnil
                        exact hlt (by rw [hc, hnil])
                      have hla := ltFollow_append d cs2 hne
                      simp only [Except.ok.injEq, Option.some.injEq] at h ⊢
                      rw [hla, h]
                    · rw [if_neg h9] at h ⊢
                      by_cases h10 : (c == '>') = true
                      · rw [if_pos h10] at h ⊢
                        have hc : c = '>' := by simpa using h10
                        have hne : cs2 = [] → d ≠ '=' := by
                          intro hnil
                          exact hgt (by rw [hc, hnil])
                        have hla := gtFollow_append d cs2 hne
                        simp only [Except.ok.injEq, Option.some.injEq] at h ⊢
                        rw [hla, h]
                      · rw [if_neg h10] at h ⊢
                        exact absurd h (by simp)

/-- Helper: an identifier run leaves a suffix of its input unconsumed. -/
theorem takeWordRun_suffix (xs : List Char) :
    ∀ acc : String, ∃ pre, xs = pre ++ (takeWordRun xs acc).2 := by
  induction xs with
  | nil => intro acc; exact ⟨[], rfl⟩
  | cons x xs ih =>
    intro acc
    cases hx : isIdentCont x
    · exact ⟨[], by simp [takeWordRun, hx]⟩
    · obtain ⟨pre, hp⟩ := ih (acc.push x)
      refine ⟨x :: pre, ?_⟩
      simp only [takeWordRun, hx, if_true, List.cons_append]
      exact congrArg (x :: ·) hp

/-- Helper: a digit run leaves a suffix of its input unconsumed. -/
theorem takeDigitRun_suffix (xs : List Char) :
    ∀ acc : String, ∃ pre, xs = pre ++ (takeDigitRun xs acc).2 := by
  induction xs with
  | nil => intro acc; exact ⟨[], rfl⟩
  | cons x xs ih =>
    intro acc
    cases hx : x.isDigit
    · exact ⟨[], by simp [takeDigitRun, hx]⟩
    · obtain ⟨pre, hp⟩ := ih (acc.push x)
      refine ⟨x :: pre, ?_⟩
      simp only [takeDigitRun, hx, if_true, List.cons_append]
      exact congrArg (x :: ·) hp

/-- Helper: the `'<'` lookahead step leaves a suffix unconsumed. -/
theorem ltFollow_suffix (cs : List Char) : ∃ pre, cs = pre ++ (ltFollow cs).2 := by
  cases cs with
  | nil => exact ⟨[], rfl⟩
  | cons c2 cs2 =>
    by_cases h2 : c2 = '='
    · exact ⟨[c2], by simp [ltFollow, h2]⟩
    · by_cases h3 : c2 = '>'
      · exact ⟨[c2], by simp [ltFollow, h2, h3]⟩
      · exact ⟨[], by simp [ltFollow, h2, h3]⟩

/-- Helper: the `'>'` lookahead step leaves a suffix unconsumed. -/
theorem gtFollow_suffix (cs : List Char) : ∃ pre, cs = pre ++ (gtFollow cs).2 := by
  cases cs with
  | nil => exact ⟨[], rfl⟩
  | cons c2 cs2 =>
    by_cases h2 : c2 = '='
    · exact ⟨[c2], by simp [gtFollow, h2]⟩
    · exact ⟨[], by simp [gtFollow, h2]⟩

/-- Helper: the characters a scanner step leaves behind form a suffix of
its input — the step only ever consumes from the front. -/
theorem next_token_suffix (cs rest : List Char) (t : Token)
    (h : Tokenizer.next_token cs = Except.ok (some (t, rest))) :
    ∃ pre, cs = pre ++ rest := by
  cases cs with
  | nil => simp [Tokenizer.next_token] at h
  | cons c cs2 =>
    simp only [Tokenizer.next_token] at h
    by_cases h1 : isWhitespaceChar c = true
    · rw [if_pos h1] at h
      simp only [Except.ok.injEq, Option.some.injEq, Prod.mk.injEq] at h
      exact ⟨[c], by rw [h.2]; rfl⟩
    · rw [if_neg h1] at h
      by_cases h2 : isIdentStart c = true
      · rw [if_pos h2] at h
        simp only [Except.ok.injEq, Option.some.injEq, Prod.mk.injEq] at h
        obtain ⟨pre, hp⟩ := takeWordRun_suffix (c :: cs2) ""
        exact ⟨pre, by rw [← h.2]; exact hp⟩
      · rw [if_neg h2] at h
        by_cases h3 : c.isDigit = true
        · rw [if_pos h3] at h
          simp only [Except.ok.injEq, Option.some.injEq, Prod.mk.injEq] at h
          obtain ⟨pre, hp⟩ := takeDigitRun_suffix (c :: cs2) ""
          exact ⟨pre, by rw [← h.2]; exact hp⟩
        · rw [if_neg h3] at h
          by_cases h4 : (c == '+') = true
          · rw [if_pos h4] at h
            simp only [Except.ok.injEq, Option.some.injEq, Prod.mk.injEq] at h
            exact ⟨[c], by rw [h.2]; rfl⟩
          · rw [if_neg h4] at h
            by_cases h5 : (c == '-') = true
            · rw [if_pos h5] at h
              simp only [Except.ok.injEq, Option.some.injEq, Prod.mk.injEq] at h
              exact ⟨[c], by rw [h.2]; rfl⟩
            · rw [if_neg h5] at h
              by_cases h6 : (c == '*') = true
              · rw [if_pos h6] at h
                simp only [Except.ok.injEq, Option.some.injEq, Prod.mk.injEq] at h
                exact ⟨[c], by rw [h.2]; rfl⟩
              · rw [if_neg h6] at h
                by_cases h7 : (c == '/') = true
                · rw [if_pos h7] at h
                  simp only [Except.ok.injEq, Option.some.injEq, Prod.mk.injEq] at h
                  exact ⟨[c], by rw [h.2]; rfl⟩
                · rw [if_neg h7] at h
                  by_cases h8 : (c == '=') = true
                  · rw [if_pos h8] at h
                    simp only [Except.ok.injEq, Option.some.injEq, Prod.mk.injEq] at h
                    exact ⟨[c], by rw [h.2]; rfl⟩
                  · rw [if_neg h8] at h
                    by_cases h9 : (c == '<') = true
                    · rw [if_pos h9] at h
                      simp only [Except.ok.injEq, Option.some.injEq] at h
                      obtain ⟨pre, hp⟩ := ltFollow_suffix cs2
                      refine ⟨c :: pre, ?_⟩
                      rw [List.cons_append]
                      refine congrArg (c :: ·) ?_
                      rw [← show rest = (ltFollow cs2).2 from congrArg Prod.snd h.symm] at hp
                      exact hp
                    · rw [if_neg h9] at h
                      by_cases h10 : (c == '>') = true
                      · rw [if_pos h10] at h
                        simp only [Except.ok.injEq, Option.some.injEq] at h
                        obtain ⟨pre, hp⟩ := gtFollow_suffix cs2
                        refine ⟨c :: pre, ?_⟩
                        rw [List.cons_append]
                        refine congrArg (c :: ·) ?_
                        rw [← show rest = (gtFollow cs2).2 from congrArg Prod.snd h.symm] at hp
                        exact hp
                      · rw [if_neg h10] at h
                        exact absurd h (by simp)

/-- Helper: the scanning loop succeeds immediately on an empty remainder. -/
theorem tokenizeLoop_nil (n : Nat) :
    tokenizeLoop (n + 1) [] = some (Except.ok []) := rfl

/-- Helper: appending an unswallowable character `d` to an input on which
the scanning loop succeeds appends exactly one token (the token `d`
scans to on its own) to the raw token sequence, at one extra loop
iteration.  The two side conditions rule out the cases where `d` would
complete a `'<'` or `'>'` compound at the very end of the input. -/
theorem tokenizeLoop_append (d : Char) (td : Token)
    (hdw : isIdentCont d = false) (hdd : d.isDigit = false)
    (htd : Tokenizer.next_token [d] = Except.ok (some (td, []))) :
    ∀ (fuel : Nat) (cs : List Char) (ts : List Token),
      (cs.getLast? = some '<' → d ≠ '=' ∧ d ≠ '>') →
      (cs.getLast? = some '>' → d ≠ '=') →
      tokenizeLoop fuel cs = some (Except.ok ts) →
      tokenizeLoop (fuel + 1) (cs ++ [d]) = some (Except.ok (ts ++ [td])) := by
  intro fuel
  induction fuel with
  | zero =>
    intro cs ts _ _ hl
    simp [tokenizeLoop] at hl
  | succ n ih =>
    intro cs ts hlt hgt hl
    rw [tokenizeLoop] at hl
    cases he : Tokenizer.next_token cs with
    | error e => rw [he] at hl; simp at hl
    | ok o =>
      cases o with
      | none =>
        have hnil : cs = [] := next_token_none cs he
        subst hnil
        rw [he] at hl
        simp only [Option.some.injEq, Except.ok.injEq] at hl
        subst hl
        rw [List.nil_append]
        rw [tokenizeLoop]
        simp only [htd, tokenizeLoop_nil n, List.nil_append]
      | some pr =>
        obtain ⟨t, rest⟩ := pr
        simp only [he] at hl
        cases hr : tokenizeLoop n rest with
        | none =>
          simp only [hr] at hl
          exact Option.noConfusion hl
        | some r =>
          cases r with
          | error e => simp only [hr] at hl; simp at hl
          | ok ts2 =>
            simp only [hr, Option.some.injEq, Except.ok.injEq] at hl
            have hstep : Tokenizer.next_token (cs ++ [d]) =
                Except.ok (some (t, rest ++ [d])) := by
              refine next_token_append d hdw hdd cs rest t ?_ ?_ he
              · intro hcs
                exact hlt (by rw [hcs]; rfl)
              · intro hcs
                exact hgt (by rw [hcs]; rfl)
            have hrec : tokenizeLoop (n + 1) (rest ++ [d]) =
                some (Except.ok (ts2 ++ [td])) := by
              by_cases hrnil : rest = []
              · subst hrnil
                exact ih [] ts2 (by simp) (by simp) hr
              · obtain ⟨pre, rfl⟩ := next_token_suffix cs rest t he
                have hg : (pre ++ rest).getLast? = rest.getLast? :=
                  List.getLast?_append_of_ne_nil pre hrnil
                exact ih rest ts2 (fun hx => hlt (hg.trans hx))
                  (fun hx => hgt (hg.trans hx)) hr
            rw [← hl]
            rw [tokenizeLoop]
            simp only [hstep, hrec, List.cons_append]

/-- Helper: lifting `tokenizeLoop_append` through the whitespace filter of
`tokenize` — appending an unswallowable non-whitespace character appends
its token to the filtered result. -/
theorem tokenize_append_last (d : Char) (td : Token)
    (hdw : isIdentCont d = false) (hdd : d.isDigit = false)
    (htd : Tokenizer.next_token [d] = Except.ok (some (td, [])))
    (hwt : isWhitespaceToken td = false)
    (cs : List Char) (ts : List Token)
    (hlt : cs.getLast? = some '<' → d ≠ '=' ∧ d ≠ '>')
    (hgt : cs.getLast? = some '>' → d ≠ '=')
    (h : tokenize cs = some (Except.ok ts)) :
    tokenize (cs ++ [d]) = some (Except.ok (ts ++ [td])) := by
  rw [tokenize] at h
  cases e : tokenizeLoop (cs.length + 1) cs with
  | none =>
    simp only [e] at h
    exact Option.noConfusion h
  | some r =>
    cases r with
    | error msg => simp only [e] at h; simp at h
    | ok raw =>
      simp only [e, Option.some.injEq, Except.ok.injEq] at h
      have hb := tokenizeLoop_append d td hdw hdd htd (cs.length + 1) cs raw hlt hgt e
      rw [tokenize]
      have hlen : (cs ++ [d]).length + 1 = cs.length + 1 + 1 := by simp
      rw [hlen, hb]
      simp only [Option.some.injEq, Except.ok.injEq, List.filter_append]
      rw [← h]
      simp [hwt]

/-- C4 counterexample: the input `"%<"` ends in a lone trailing `'<'`, yet
tokenizing it does not succeed — it fails on the unhandled percent
character before the trailing angle bracket is ever reached. -/
theorem compound_operator_tokens_cex :
    tokenize (strChars "%<") =
      some (Except.error (ParserError.TokenizerError (tokErrMsg '%'))) := rfl

/-- C4 (amended): `"a <= b"` tokenizes to `[Identifier a, LtEq, Identifier b]`
and `"a <> b"` has `Neq` as its middle token; moreover, for every input on
which tokenization succeeds, appending a trailing `'<'` yields a successful
tokenization ending in `Lt`, and appending a trailing `'>'` (to an input
not already ending in `'<'`, which would complete the `<>` compound) yields
a successful tokenization ending in `Gt`. -/
theorem compound_operator_tokens :
    tokenize (strChars "a <= b") =
      some (Except.ok [Token.Identifier "a", Token.LtEq, Token.Identifier "b"]) ∧
    tokenize (strChars "a <> b") =
      some (Except.ok [Token.Identifier "a", Token.Neq, Token.Identifier "b"]) ∧
    (∀ (cs : List Char) (ts : List Token),
        tokenize cs = some (Except.ok ts) →
        tokenize (cs ++ ['<']) = some (Except.ok (ts ++ [Token.Lt]))) ∧
    (∀ (cs : List Char) (ts : List Token),
        tokenize cs = some (Except.ok ts) →
        cs.getLast? ≠ some '<' →
        tokenize (cs ++ ['>']) = some (Except.ok (ts ++ [Token.Gt]))) := by
  refine ⟨rfl, rfl, ?_, ?_⟩
  · intro cs ts h
    refine tokenize_append_last '<' Token.Lt (by decide) (by decide) rfl rfl cs ts ?_ ?_ h
    · intro hx
      exact ⟨by decide, by decide⟩
    · intro hx
      decide
  · intro cs ts h hne
    refine tokenize_append_last '>' Token.Gt (by decide) (by decide) rfl rfl cs ts ?_ ?_ h
    · intro hx
      exact absurd hx hne
    · intro hx
      decide

/-- Witness for C4 on the input `"a"` extended by `'<'` and by `'>'`. -/
theorem compound_operator_tokens_witness :
    tokenize (strChars "a" ++ ['<']) =
      some (Except.ok [Token.Identifier "a", Token.Lt]) ∧
    tokenize (strChars "a" ++ ['>']) =
      some (Except.ok [Token.Identifier "a", Token.Gt]) :=
  ⟨compound_operator_tokens.2.2.1 (strChars "a") [Token.Identifier "a"] rfl,
   compound_operator_tokens.2.2.2 (strChars "a") [Token.Identifier "a"] rfl (by decide)⟩
